import Mathlib

/-!
Verification of the streaming chat client: data model (types.ts), the
newline-delimited JSON stream decoder (services/geminiService.ts,
streamTextResponse), the inline command interpreter and source merge
(components/ChatInterface.tsx, handleSend), the realtime audio capture
and playback scheduling, and the live-session teardown (TalkInterface).

Text is modelled as `List Char`; machine behaviour (JS `ToInt16`
truncation and wraparound) is made explicit over `ℚ`/`ℤ`.
-/

/-! ### Data model, from types.ts -/

/-- `GroundingSource` from types.ts: `{ uri: string; title: string }`. -/
structure GroundingSource where
  uri : List Char
  title : List Char
deriving DecidableEq, Repr

/-- Sender enum of `Message.sender` in types.ts: `"user" | "bot"`. -/
inductive Sender where
  | user
  | bot
deriving DecidableEq, Repr

/-- `Message` from types.ts.  The optional TS field `sources?` is modelled
with `[]` for `undefined` (the code treats the two alike via `|| []` and
optional chaining). -/
structure Message where
  id : List Char
  text : List Char
  sender : Sender
  sources : List GroundingSource := []
  reaction : Option (List Char) := none
deriving DecidableEq, Repr

/-- `StreamResponse` wire unit from types.ts:
`{ textChunk?: string; sources?: GroundingSource[] }`. -/
structure StreamResponse where
  textChunk : Option (List Char) := none
  sources : Option (List GroundingSource) := none
deriving DecidableEq, Repr

/-! ### Source merge, from ChatInterface.tsx handleSend (lines 154-161)

```
const existingUris = new Set(msg.sources?.map(s => s.uri));
const newSources = chunk.sources!.filter(s => !existingUris.has(s.uri));
return { ...msg, sources: [...(msg.sources || []), ...newSources] };
```
-/

/-- The pure merge of an incoming source list into an existing one, exactly
as computed by the `chunk.sources` branch of `handleSend`. -/
def mergeSources (existing incoming : List GroundingSource) : List GroundingSource :=
  existing ++ incoming.filter (fun s => !(existing.any (fun e => e.uri == s.uri)))

/-! ### Reaction directive, from ChatInterface.tsx handleSend (lines 109-124)

```
let lastUserMessageIndex = -1;
for (let i = updated.length - 1; i >= 0; i--) {
    if (updated[i].sender === "user") { lastUserMessageIndex = i; break; }
}
if (lastUserMessageIndex !== -1 && !updated[lastUserMessageIndex].reaction) {
    updated[lastUserMessageIndex] = { ...updated[lastUserMessageIndex], reaction: emoji };
}
```
-/

/-- Index of the most recent `user`-sent message (the backward scan of the
`[REACT:...]` handler); `none` when no user message exists. -/
def lastUserIdx : List Message → Option Nat
  | [] => none
  | m :: rest =>
    match lastUserIdx rest with
    | some i => some (i + 1)
    | none => if m.sender = Sender.user then some 0 else none

/-- The state update performed by the `[REACT:emoji]` branch of `handleSend`. -/
def applyReact (msgs : List Message) (emoji : List Char) : List Message :=
  match lastUserIdx msgs with
  | none => msgs
  | some i =>
    match msgs[i]? with
    | some m =>
      if m.reaction = none then msgs.set i { m with reaction := some emoji } else msgs
    | none => msgs

/-! ### Playback scheduling, from TalkInterface onmessage (part_000 lines 246-256)

```
nextStartTimeRef.current = Math.max(nextStartTimeRef.current, outputAudioContextRef.current.currentTime);
...
sourceNode.start(nextStartTimeRef.current);
nextStartTimeRef.current += audioBuffer.duration;
```

A frame is modelled as the pair (output-clock time observed when the frame is
handled, decoded buffer duration); `scheduleRun` returns the (start time,
duration) pair of each scheduled buffer, threading the running cursor. -/

/-- Sequential playback scheduling: each inbound frame `(clock, dur)` is
scheduled at `max cursor clock` and the cursor advances by `dur`. -/
def scheduleRun : ℚ → List (ℚ × ℚ) → List (ℚ × ℚ)
  | _, [] => []
  | cursor, (clock, dur) :: rest =>
      (max cursor clock, dur) :: scheduleRun (max cursor clock + dur) rest

/-! ### Realtime audio capture, from part_000 (createBlob / encode, lines 114-133)

```
function createBlob(data: Float32Array): GeminiBlob {
    const int16 = new Int16Array(l);
    for (let i = 0; i < l; i++) { int16[i] = data[i] * 32768; }
    return { data: encode(new Uint8Array(int16.buffer)), mimeType: "audio/pcm;rate=16000" };
}
```

Samples are modelled as exact rationals (a float32 sample scaled by the power
of two 32768 is exact in the JS float64 arithmetic); the store into the
`Int16Array` is JS `ToInt16`: truncate toward zero, then reduce modulo 2^16
into `[-32768, 32768)`. `encode` (binary string + `btoa`) is modelled by
base64 over the little-endian bytes of the `Int16Array` buffer. -/

/-- JS number-to-integer truncation (toward zero). -/
def jsTrunc (q : ℚ) : ℤ := if 0 ≤ q then ⌊q⌋ else ⌈q⌉

/-- JS `ToInt16`: reduce an integer modulo 2^16 into `[-32768, 32768)`. -/
def wrap16 (n : ℤ) : ℤ :=
  if 32768 ≤ n % 65536 then n % 65536 - 65536 else n % 65536

/-- The store `int16[i] = data[i] * 32768` of `createBlob`: scale by 32768,
truncate, wrap modulo 2^16 — no clamping. -/
def toInt16 (s : ℚ) : ℤ := wrap16 (jsTrunc (s * 32768))

/-- Little-endian bytes of one 16-bit sample in the `Int16Array` buffer. -/
def int16LE (n : ℤ) : List ℕ := [((n % 65536) % 256).toNat, ((n % 65536) / 256).toNat]

/-- Base64 alphabet used by `btoa`. -/
def b64Alphabet : List Char :=
  "ABCDEFGHIJKLMNOPQRSTUVWXYZabcdefghijklmnopqrstuvwxyz0123456789+/".toList

/-- One base64 digit. -/
def b64Digit (n : ℕ) : Char := b64Alphabet.getD n 'A'

/-- `btoa` over a byte list: 3 bytes become 4 base64 digits, with padding. -/
def b64encode : List ℕ → List Char
  | [] => []
  | [b1] => [b64Digit (b1 / 4), b64Digit (b1 % 4 * 16), '=', '=']
  | [b1, b2] => [b64Digit (b1 / 4), b64Digit (b1 % 4 * 16 + b2 / 16), b64Digit (b2 % 16 * 4), '=']
  | b1 :: b2 :: b3 :: rest =>
      b64Digit (b1 / 4) :: b64Digit (b1 % 4 * 16 + b2 / 16) ::
        b64Digit (b2 % 16 * 4 + b3 / 64) :: b64Digit (b3 % 64) :: b64encode rest

/-- The outbound live-audio frame `{ data, mimeType }` (GeminiBlob). -/
structure GeminiBlob where
  data : List Char
  mimeType : List Char
deriving DecidableEq, Repr

/-- The quantized `Int16Array` contents of `createBlob`. -/
def createInt16 (data : List ℚ) : List ℤ := data.map toInt16

/-- `createBlob` from part_000: quantize, pack little-endian, base64-encode,
tag with the fixed capture mime type. -/
def createBlob (data : List ℚ) : GeminiBlob :=
  { data := b64encode (((createInt16 data).map int16LE).flatten)
    mimeType := "audio/pcm;rate=16000".toList }

/-! ### Chat request history, from ChatInterface.tsx handleSend (lines 64-71)

```
const MAX_HISTORY_MESSAGES = 20;
const history = currentMessages
    .filter(m => m.id !== "initial-greeting")
    .slice(-MAX_HISTORY_MESSAGES)
    .map(m => ({ role: m.sender === "user" ? "user" : "model", parts: [{ text: m.text }] }));
```
with `currentMessages = [...messages, newUserMessage]`. -/

/-- The id of the seeded greeting message excluded from request history. -/
def greetingId : List Char := "initial-greeting".toList

/-- One entry of the `history` array sent to the backend. -/
structure HistEntry where
  role : List Char
  parts : List (List Char)
deriving DecidableEq, Repr

/-- The per-message mapping of the history pipeline. -/
def toHistEntry (m : Message) : HistEntry :=
  { role := if m.sender = Sender.user then "user".toList else "model".toList
    parts := [m.text] }

/-- The history pipeline of `handleSend`: filter out the greeting, keep the
last 20 (`slice(-20)` = drop all but the final 20), map to role/parts. -/
def buildHistory (currentMessages : List Message) : List HistEntry :=
  let filtered := currentMessages.filter (fun m => m.id != greetingId)
  (filtered.drop (filtered.length - 20)).map toHistEntry

/-- The history actually sent for one send: the conversation so far plus the
just-sent user message, run through the pipeline. -/
def handleSendHistory (messages : List Message) (newUserMessage : Message) : List HistEntry :=
  buildHistory (messages ++ [newUserMessage])

/-! ### Text stream decoder, from geminiService.ts streamTextResponse (lines 251-285)

```
buffer += decoder.decode(value, { stream: true });
const lines = buffer.split('\n');
buffer = lines.pop() || "";
for (const line of lines) {
    if (line.trim()) {
        try { yield JSON.parse(line); } catch (e) { console.error(...); }
    }
}
// on done:
if (buffer.trim()) { try { yield JSON.parse(buffer); } catch (e) {...} }
```

Fragments are modelled as already-decoded text (`TextDecoder` with
`stream: true` is the stateful byte decoder of the host); `JSON.parse` is the
parser of the host, modelled by an arbitrary partial parse function. -/

/-- Helper for `splitUnits`: prepend a character to the first complete line,
or to the remainder when no complete line exists. -/
def consLine (c : Char) : List (List Char) × List Char → List (List Char) × List Char
  | ([], r) => ([], c :: r)
  | (l :: t, r) => ((c :: l) :: t, r)

/-- `buffer.split('\n')` followed by `lines.pop()`: the fully delimited lines
in order, and the trailing (possibly empty) remainder. -/
def splitUnits : List Char → List (List Char) × List Char
  | [] => ([], [])
  | c :: cs =>
    if c = '\n' then ([] :: (splitUnits cs).1, (splitUnits cs).2)
    else consLine c (splitUnits cs)

/-- JS `String.prototype.trim` on a line (the relevant whitespace — space,
tab, CR, LF — is `Char.isWhitespace`). -/
def jsTrim (s : List Char) : List Char :=
  ((s.dropWhile Char.isWhitespace).reverse.dropWhile Char.isWhitespace).reverse

/-- The `for (const line of lines)` body: skip blank lines, yield each line
that parses, silently skip lines that fail to parse. -/
def parseLines {J : Type} (parse : List Char → Option J) (ls : List (List Char)) : List J :=
  ls.filterMap (fun l => if jsTrim l = [] then none else parse l)

/-- One iteration of the read loop on an incoming fragment: append to the
buffer, split off complete lines, keep the remainder, yield parsed units. -/
def stepChunk {J : Type} (parse : List Char → Option J) (buffer chunk : List Char) :
    List Char × List J :=
  ((splitUnits (buffer ++ chunk)).2, parseLines parse (splitUnits (buffer ++ chunk)).1)

/-- The read loop over all arriving fragments, threading the buffer and
collecting yields in order. -/
def runChunks {J : Type} (parse : List Char → Option J) (buffer : List Char) :
    List (List Char) → List Char × List J
  | [] => (buffer, [])
  | c :: cs =>
    ((runChunks parse (stepChunk parse buffer c).1 cs).1,
      (stepChunk parse buffer c).2 ++ (runChunks parse (stepChunk parse buffer c).1 cs).2)

/-- The `done` branch: one final parse attempt on a non-blank remainder. -/
def finishStream {J : Type} (parse : List Char → Option J) (buffer : List Char) : List J :=
  if jsTrim buffer = [] then [] else (parse buffer).toList

/-- Everything `streamTextResponse` yields on a cleanly ending fragment
stream. -/
def streamDecode {J : Type} (parse : List Char → Option J) (chunks : List (List Char)) :
    List J :=
  (runChunks parse [] chunks).2 ++ finishStream parse (runChunks parse [] chunks).1

/-- Newline-join of complete units: each unit followed by its delimiter. -/
def joinNl (units : List (List Char)) : List Char :=
  (units.map (fun u => u ++ ['\n'])).flatten

/-- A concrete stand-in for the host parser used by the C2 witness: accepts
exactly the text `"1"`. -/
def parseOne : List Char → Option Nat :=
  fun s => if s = "1".toList then some 1 else none

/-! ### C3: one malformed unit amid valid ones (geminiService.ts lines 275-284,
part_000 lines 55-63). -/

/-- The first valid line of the C3 input, `{"textChunk":"a"}`. -/
def lineA : List Char := "\x7b\"textChunk\":\"a\"\x7d".toList

/-- The malformed line of the C3 input. -/
def lineN : List Char := "NOTJSON".toList

/-- The second valid line of the C3 input, `{"textChunk":"b"}`. -/
def lineB : List Char := "\x7b\"textChunk\":\"b\"\x7d".toList

/-- The wire unit carried by `lineA`. -/
def unitA : StreamResponse := { textChunk := some "a".toList, sources := none }

/-- The wire unit carried by `lineB`. -/
def unitB : StreamResponse := { textChunk := some "b".toList, sources := none }

/-- A concrete stand-in for the host parser used by the C3 witness: behaves
as `JSON.parse` does on the three lines of the C3 input. -/
def parseC3 : List Char → Option StreamResponse :=
  fun s => if s = lineA then some unitA else if s = lineB then some unitB else none

/-! ### C4: transport-failure containment (geminiService.ts lines 245-249 and
286-290; part_000 lines 36 and 65-68).

```
if (!response.ok || !response.body) { ... throw new Error(...); }
...
} catch (error) {
    console.error("Error fetching streaming response:", error);
    yield { textChunk: "Error: Could not connect to the agent. Please ensure the server is running." };
}
```
-/

/-- Network-level outcome of the fetch/read of one chat stream: status not
OK, missing body, or a fragment stream that either ends cleanly or raises
while being read (after delivering some fragments). -/
inductive Transport where
  | notOk
  | noBody
  | stream (frags : List (List Char)) (readFailed : Bool)
deriving DecidableEq, Repr

/-- The synthetic error text yielded by the catch block. -/
def connectErrorText : List Char :=
  "Error: Could not connect to the agent. Please ensure the server is running.".toList

/-- The single synthetic unit yielded on any transport failure. -/
def errorUnit : StreamResponse := { textChunk := some connectErrorText, sources := none }

/-- Everything `streamTextResponse` yields, as a function of the transport
outcome: the `try` body runs the read loop on delivered fragments (the `done`
branch only on a clean end), and the `catch` appends the synthetic unit on
any failure instead of rethrowing. -/
def streamTextResponseFull (parse : List Char → Option StreamResponse) :
    Transport → List StreamResponse
  | .notOk => [errorUnit]
  | .noBody => [errorUnit]
  | .stream frags false => streamDecode parse frags
  | .stream frags true => (runChunks parse [] frags).2 ++ [errorUnit]

/-! ### Session teardown, from TalkInterface handleStopLive (part_000 lines 186-204)

```
const handleStopLive = useCallback(() => {
    if (!isLiveRef.current) return;
    setIsLive(false);
    setLiveStatus("Conversation ended. ...");
    sessionPromiseRef.current?.then(session => session.close()).catch(e => ...);
    streamRef.current?.getTracks().forEach(track => track.stop());
    scriptProcessorRef.current?.disconnect();
    mediaStreamSourceRef.current?.disconnect();
    inputAudioContextRef.current?.close().catch(() => {});
    outputAudioContextRef.current?.close().catch(() => {});
    sessionPromiseRef.current = null;
    streamRef.current = null;
    scriptProcessorRef.current = null;
    mediaStreamSourceRef.current = null;
}, []);
```

The refs are modelled as optional handles (the audio-context refs keep a
closed flag, since they are closed but never nulled); `isLiveRef` tracks the
`isLive` state only after a render (the `useEffect` sync), so both the
pre-render and post-render repeat call are covered.  A close on an
already-closed context rejects, which the source swallows with
`.catch(() => {})` — `closeCtxCaught` embeds exactly that catch. -/

/-- An observable release action performed by the teardown. -/
inductive TEffect where
  | closeSession
  | stopTracks
  | disconnectProcessor
  | disconnectSource
  | closeInputCtx
  | closeOutputCtx
deriving DecidableEq, Repr

/-- The resource handles and liveness flags held by `TalkInterface`. -/
structure TalkState where
  isLiveState : Bool
  isLiveRef : Bool
  sessionPromise : Option Unit
  stream : Option Unit
  scriptProcessor : Option Unit
  mediaStreamSource : Option Unit
  inputCtx : Option Bool
  outputCtx : Option Bool
deriving DecidableEq, Repr

/-- `ctxRef.current?.close().catch(() => {})`: no-op on a null ref, a real
close (one effect) on an open context, and a swallowed rejection (no effect)
on an already-closed context. -/
def closeCtxCaught (c : Option Bool) (e : TEffect) : Option Bool × List TEffect :=
  match c with
  | none => (none, [])
  | some true => (some true, [])
  | some false => (some true, [e])

/-- Optional-chained call on a plain handle: one effect when present. -/
def effOf (h : Option Unit) (e : TEffect) : List TEffect :=
  match h with
  | none => []
  | some _ => [e]

/-- `handleStopLive`: the guard, the six release steps, and the nulling of
the four handle refs (the audio-context refs are closed but not nulled,
exactly as in the source). -/
def handleStopLive (st : TalkState) : TalkState × List TEffect :=
  if ¬ st.isLiveRef then (st, [])
  else
    ({ st with
        isLiveState := false
        sessionPromise := none
        stream := none
        scriptProcessor := none
        mediaStreamSource := none
        inputCtx := (closeCtxCaught st.inputCtx TEffect.closeInputCtx).1
        outputCtx := (closeCtxCaught st.outputCtx TEffect.closeOutputCtx).1 },
      effOf st.sessionPromise TEffect.closeSession
        ++ effOf st.stream TEffect.stopTracks
        ++ effOf st.scriptProcessor TEffect.disconnectProcessor
        ++ effOf st.mediaStreamSource TEffect.disconnectSource
        ++ (closeCtxCaught st.inputCtx TEffect.closeInputCtx).2
        ++ (closeCtxCaught st.outputCtx TEffect.closeOutputCtx).2)

/-- The `useEffect` that syncs `isLiveRef.current = isLive` on render. -/
def renderSync (st : TalkState) : TalkState := { st with isLiveRef := st.isLiveState }

/-- The state of a component on which a session was never started. -/
def neverStarted : TalkState :=
  { isLiveState := false, isLiveRef := false, sessionPromise := none, stream := none,
    scriptProcessor := none, mediaStreamSource := none, inputCtx := none, outputCtx := none }

/-- A started-session state with all resources held. -/
def startedState : TalkState :=
  { isLiveState := true, isLiveRef := true, sessionPromise := some (), stream := some (),
    scriptProcessor := some (), mediaStreamSource := some (),
    inputCtx := some false, outputCtx := some false }

/-! ### Inline command interpreter, from ChatInterface.tsx handleSend (lines 86-146)

```
buffer += chunk.textChunk || "";
const commandRegex = /(\[REACT:[^\]]+\]|\[MSG_BREAK\])/g;
let match; let lastIndex = 0;
while ((match = commandRegex.exec(buffer)) !== null) {
    const command = match[0];
    const textPart = buffer.substring(lastIndex, match.index);
    if (textPart) { ...append textPart (new bubble if none open)... }
    if (command.startsWith("[REACT:")) { ...applyReact... }
    else if (command === "[MSG_BREAK]") { currentBotMessageId = null; await wait(...); }
    lastIndex = commandRegex.lastIndex;
}
buffer = buffer.substring(lastIndex);
if (buffer) { ...append buffer (new bubble if none open)... }
buffer = buffer.substring(lastIndex);
```

The regex scan is modelled by `findCmd` (leftmost match of either directive;
`[REACT:` takes a non-empty run of non-`]` characters closed by `]`), the
while loop by the fuelled `cmdLoopF` (each found command strictly shortens
the text, so `length` fuel always suffices), and the two post-loop
`substring(lastIndex)` statements — the second of which reuses the stale
`lastIndex` — are kept verbatim.  The `wait` after `[MSG_BREAK]` is a pure
scheduling delay with no state effect.  At stream end, the `finally` block
filters out blank bubbles (`finalizeMessages`). -/

/-- An inline directive. -/
inductive Cmd where
  | react (payload : List Char)
  | msgBreak
deriving DecidableEq, Repr

/-- Whether `pat` is an initial segment of `cs`. -/
def listStartsWith : List Char → List Char → Bool
  | [], _ => true
  | _ :: _, [] => false
  | p :: ps, c :: cs => p = c && listStartsWith ps cs

/-- The opener of a reaction directive. -/
def reactOpen : List Char := "[REACT:".toList

/-- The message-break directive. -/
def msgBreakTok : List Char := "[MSG_BREAK]".toList

/-- Try to match one directive at the current position (the two regex
alternatives, `[REACT:` with a non-empty non-`]` payload first). -/
def matchCmd (cs : List Char) : Option (Cmd × List Char) :=
  if listStartsWith reactOpen cs then
    let after := cs.drop 7
    let payload := after.takeWhile (fun c => c ≠ ']')
    if payload = [] then none
    else
      match after.drop payload.length with
      | ']' :: rest => some (Cmd.react payload, rest)
      | _ => none
  else if listStartsWith msgBreakTok cs then some (Cmd.msgBreak, cs.drop 11)
  else none

/-- Leftmost directive occurrence: the text before it, the directive, and
the rest after it (the `commandRegex.exec` scan). -/
def findCmd : List Char → Option (List Char × Cmd × List Char)
  | [] => none
  | c :: cs =>
    match matchCmd (c :: cs) with
    | some (k, rest) => some ([], k, rest)
    | none =>
      match findCmd cs with
      | some (pre, k, rest) => some (c :: pre, k, rest)
      | none => none

/-- The interpreter state threaded across chunks by `handleSend`: the message
list, the open-bubble id (`currentBotMessageId`), the carry `buffer`, and a
fresh-id counter standing in for `Date.now()`-based ids. -/
structure ChatSt where
  messages : List Message
  currentBot : Option (List Char)
  buffer : List Char
  nextId : Nat
deriving DecidableEq, Repr

/-- Fresh message id from the counter. -/
def freshId (n : Nat) : List Char := (Nat.repr n).toList

/-- Append prose to the open bubble, opening a new bot bubble when none is
open (the two branches at lines 100-105 and 138-143). -/
def appendProse (st : ChatSt) (txt : List Char) : ChatSt :=
  match st.currentBot with
  | none =>
    { st with
        messages := st.messages
          ++ [{ id := freshId st.nextId, text := txt, sender := Sender.bot,
                sources := [], reaction := none }]
        currentBot := some (freshId st.nextId)
        nextId := st.nextId + 1 }
  | some bid =>
    { st with
        messages := st.messages.map
          (fun m => if m.id = bid then { m with text := m.text ++ txt } else m) }

/-- The `while ((match = commandRegex.exec(buffer)) ...)` loop, fuelled by
the text length (each iteration consumes at least the matched command). -/
def cmdLoopF : Nat → ChatSt → List Char → ChatSt × List Char
  | 0, st, cs => (st, cs)
  | fuel + 1, st, cs =>
    match findCmd cs with
    | none => (st, cs)
    | some (pre, k, rest) =>
      let st1 := if pre = [] then st else appendProse st pre
      let st2 :=
        match k with
        | Cmd.react payload => { st1 with messages := applyReact st1.messages payload }
        | Cmd.msgBreak => { st1 with currentBot := none }
      cmdLoopF fuel st2 rest

/-- One iteration of the `for await (const chunk of responseStream)` body:
accumulate the text, run the command loop, then the two post-loop buffer
truncations (the second with the stale `lastIndex`), then the source-merge
branch. -/
def processChunk (st : ChatSt) (chunk : StreamResponse) : ChatSt :=
  let b0 := st.buffer ++ chunk.textChunk.getD []
  let res := cmdLoopF b0.length { st with buffer := b0 } b0
  let rem := res.2
  let lastIndex := b0.length - rem.length
  let st2 := if rem = [] then res.1 else appendProse res.1 rem
  let st3 := { st2 with buffer := rem.drop lastIndex }
  match chunk.sources with
  | none => st3
  | some srcs =>
    match st3.currentBot with
    | none =>
      { st3 with
          messages := st3.messages
            ++ [{ id := freshId st3.nextId, text := [], sender := Sender.bot,
                  sources := srcs, reaction := none }]
          currentBot := some (freshId st3.nextId)
          nextId := st3.nextId + 1 }
    | some bid =>
      { st3 with
          messages := st3.messages.map
            (fun m => if m.id = bid then { m with sources := mergeSources m.sources srcs }
              else m) }

/-- State at the start of a send: no bot bubble open, empty carry buffer. -/
def initialChatState : ChatSt :=
  { messages := [], currentBot := none, buffer := [], nextId := 0 }

/-- The whole stream loop over the decoded chunks. -/
def runStream (st : ChatSt) (chunks : List StreamResponse) : ChatSt :=
  chunks.foldl processChunk st

/-- The `finally` cleanup: drop bubbles with blank text and no sources. -/
def finalizeMessages (st : ChatSt) : List Message :=
  st.messages.filter (fun m => jsTrim m.text != [] || m.sources != [])

/-- A text-only chunk. -/
def textOnly (s : String) : StreamResponse := { textChunk := some s.toList, sources := none }

theorem mergeSources_char (E I : List GroundingSource) :
    mergeSources E I
      = E ++ I.filter (fun s => decide (s.uri ∉ E.map GroundingSource.uri)) := by
  unfold mergeSources
  congr 1
  apply List.filter_congr
  intro a _
  rw [Bool.eq_iff_iff]
  simp only [Bool.not_eq_true', List.any_eq_false, beq_iff_eq, decide_eq_true_eq,
    List.mem_map, not_exists, not_and]

theorem mergeSources_nodup (E I : List GroundingSource)
    (hE : (E.map GroundingSource.uri).Nodup)
    (hI : (I.map GroundingSource.uri).Nodup) :
    ((mergeSources E I).map GroundingSource.uri).Nodup := by
  unfold mergeSources
  rw [List.map_append, List.nodup_append]
  refine ⟨hE, ?_, ?_⟩
  · exact hI.sublist ((List.filter_sublist _).map _)
  · intro u hu hu'
    rcases List.mem_map.mp hu' with ⟨s, hs, rfl⟩
    rcases List.mem_filter.mp hs with ⟨hsI, hpred⟩
    rcases List.mem_map.mp hu with ⟨e, heE, heq⟩
    simp only [Bool.not_eq_true', List.any_eq_false, beq_iff_eq] at hpred
    exact hpred e heE heq

theorem mergeSources_idem (E I : List GroundingSource) :
    mergeSources (mergeSources E I) I = mergeSources E I := by
  unfold mergeSources
  rw [List.append_right_eq_self]
  rw [List.filter_eq_nil_iff]
  intro s hsI
  have hany : ((E ++ List.filter (fun s => !E.any fun e => e.uri == s.uri) I).any
      fun e => e.uri == s.uri) = true := by
    rw [List.any_append]
    by_cases hE : (E.any fun e => e.uri == s.uri) = true
    · simp [hE]
    · have hpred : (!E.any fun e => e.uri == s.uri) = true := by
        simp only [Bool.not_eq_true] at hE
        simp [hE]
      have hmem : s ∈ List.filter (fun s => !E.any fun e => e.uri == s.uri) I :=
        List.mem_filter.mpr ⟨hsI, hpred⟩
      have : (List.filter (fun s => !E.any fun e => e.uri == s.uri) I).any
          (fun e => e.uri == s.uri) = true :=
        List.any_eq_true.mpr ⟨s, hmem, by simp⟩
      simp [this]
  simp [hany]

/-- C5 counterexample: with an empty existing list and an incoming list whose
two sources share the uri `"u"`, the merge appends both, so the uris of the
result are not unique — refuting the claimed "uris remain unique within the
result" at this concrete input. -/
theorem C5_uri_uniqueness_fails :
    mergeSources []
        [⟨"u".toList, "t1".toList⟩, ⟨"u".toList, "t2".toList⟩]
      = [⟨"u".toList, "t1".toList⟩, ⟨"u".toList, "t2".toList⟩]
    ∧ ¬ ((mergeSources []
        [⟨"u".toList, "t1".toList⟩, ⟨"u".toList, "t2".toList⟩]).map
          GroundingSource.uri).Nodup := by
  constructor
  · decide
  · decide

/-- C5 (amended): merging appends exactly those incoming sources whose uri is
not already present in the existing sequence, preserving first-seen order;
uris are unique within the result whenever the existing uris are unique and
the incoming uris are pairwise distinct; and the merge is idempotent:
`merge (merge E I) I = merge E I` for all `E`, `I`. -/
theorem C5_source_merge_amended (E I : List GroundingSource) :
    (mergeSources E I
      = E ++ I.filter (fun s => decide (s.uri ∉ E.map GroundingSource.uri)))
    ∧ ((E.map GroundingSource.uri).Nodup → (I.map GroundingSource.uri).Nodup →
        ((mergeSources E I).map GroundingSource.uri).Nodup)
    ∧ mergeSources (mergeSources E I) I = mergeSources E I :=
  ⟨mergeSources_char E I, mergeSources_nodup E I, mergeSources_idem E I⟩

/-- Witness for C5 (amended) at a concrete input: existing `[a]`, incoming
`[a2, b]` where `a2` repeats uri `"a"`; the merge appends only `b`, the
uris of the result are unique, and re-merging changes nothing. -/
theorem C5_source_merge_amended_witness :
    ((mergeSources [⟨"a".toList, "ta".toList⟩]
        [⟨"a".toList, "ta2".toList⟩, ⟨"b".toList, "tb".toList⟩]).map
          GroundingSource.uri).Nodup
    ∧ mergeSources
        (mergeSources [⟨"a".toList, "ta".toList⟩]
          [⟨"a".toList, "ta2".toList⟩, ⟨"b".toList, "tb".toList⟩])
        [⟨"a".toList, "ta2".toList⟩, ⟨"b".toList, "tb".toList⟩]
      = mergeSources [⟨"a".toList, "ta".toList⟩]
          [⟨"a".toList, "ta2".toList⟩, ⟨"b".toList, "tb".toList⟩] :=
  ⟨(C5_source_merge_amended _ _).2.1 (by decide) (by decide),
   (C5_source_merge_amended _ _).2.2⟩

theorem lastUserIdx_eq_none (msgs : List Message)
    (h : ∀ m ∈ msgs, m.sender ≠ Sender.user) : lastUserIdx msgs = none := by
  induction msgs with
  | nil => rfl
  | cons a rest ih =>
    have hrest := ih (fun m hm => h m (List.mem_cons_of_mem a hm))
    have ha : a.sender ≠ Sender.user := h a (List.mem_cons_self a rest)
    simp [lastUserIdx, hrest, ha]

theorem lastUserIdx_eq_some (msgs : List Message) (i : Nat) (m : Message)
    (hm : msgs[i]? = some m) (hu : m.sender = Sender.user)
    (hlast : ∀ j m', i < j → msgs[j]? = some m' → m'.sender ≠ Sender.user) :
    lastUserIdx msgs = some i := by
  induction msgs generalizing i with
  | nil => simp at hm
  | cons a rest ih =>
    cases i with
    | zero =>
      have ha : a = m := by simpa using hm
      have hrest : lastUserIdx rest = none := by
        apply lastUserIdx_eq_none
        intro m' hm'
        rcases List.mem_iff_getElem?.mp hm' with ⟨j, hj⟩
        exact hlast (j + 1) m' (Nat.succ_pos j) (by simpa using hj)
      subst ha
      simp [lastUserIdx, hrest, hu]
    | succ i' =>
      have hm' : rest[i']? = some m := by simpa using hm
      have hlast' : ∀ j m', i' < j → rest[j]? = some m' → m'.sender ≠ Sender.user := by
        intro j m' hj hjm
        exact hlast (j + 1) m' (Nat.succ_lt_succ hj) (by simpa using hjm)
      have := ih i' hm' hlast'
      simp [lastUserIdx, this]

/-- C6: applying a `[REACT:x]` directive targets the most recent user-sent
message (the backward scan): if no user message exists the list is unchanged;
if the most recent user message is unreacted its reaction is set to `x` and
nothing else changes (all other messages, and all other fields of that
message, are preserved by `List.set` with a reaction-only update); if it
already carries a reaction the list is unchanged. -/
theorem C6_reaction_directive (msgs : List Message) (emoji : List Char) :
    ((∀ m ∈ msgs, m.sender ≠ Sender.user) → applyReact msgs emoji = msgs)
    ∧ (∀ i m, msgs[i]? = some m → m.sender = Sender.user →
        (∀ j m', i < j → msgs[j]? = some m' → m'.sender ≠ Sender.user) →
        (m.reaction = none →
            applyReact msgs emoji = msgs.set i { m with reaction := some emoji })
        ∧ (m.reaction ≠ none → applyReact msgs emoji = msgs)) := by
  constructor
  · intro h
    unfold applyReact
    rw [lastUserIdx_eq_none msgs h]
  · intro i m hm hu hlast
    have hidx := lastUserIdx_eq_some msgs i m hm hu hlast
    constructor
    · intro hnone
      simp only [applyReact, hidx, hm, if_pos hnone]
    · intro hsome
      simp only [applyReact, hidx, hm, if_neg hsome]

/-- Witness for C6 at a concrete input: a single unreacted user message
receives the reaction `"x"`. -/
theorem C6_reaction_directive_witness :
    applyReact [⟨"1".toList, "yo".toList, Sender.user, [], none⟩] "x".toList
      = [⟨"1".toList, "yo".toList, Sender.user, [], some "x".toList⟩] := by
  have hlast : ∀ j m', 0 < j →
      ([⟨"1".toList, "yo".toList, Sender.user, [], none⟩] : List Message)[j]? = some m' →
      m'.sender ≠ Sender.user := by
    intro j m' hj hm'
    cases j with
    | zero => omega
    | succ j' => simp at hm'
  have h := ((C6_reaction_directive
      [⟨"1".toList, "yo".toList, Sender.user, [], none⟩] "x".toList).2 0
      ⟨"1".toList, "yo".toList, Sender.user, [], none⟩ rfl rfl hlast).1 rfl
  exact h.trans (by decide)

theorem scheduleRun_head_ge (frames : List (ℚ × ℚ)) (cursor : ℚ) (x : ℚ × ℚ)
    (h : (scheduleRun cursor frames).head? = some x) : cursor ≤ x.1 := by
  cases frames with
  | nil => simp [scheduleRun] at h
  | cons f rest =>
    rcases f with ⟨c, d⟩
    simp only [scheduleRun, List.head?_cons, Option.some.injEq] at h
    rw [← h]
    exact le_max_left _ _

/-- C7: for every sequence of inbound audio frames handled in order, every
buffer starts at `max (current clock, running cursor)`, hence no buffer starts
before the current clock time (`Forall₂` part, which also records that the
scheduled durations are the decoded ones), and each scheduled buffer starts no
earlier than the start of the previous buffer plus its duration (`Chain'` part). -/
theorem C7_playback_scheduling (cursor0 : ℚ) (frames : List (ℚ × ℚ)) :
    List.Chain' (fun a b : ℚ × ℚ => a.1 + a.2 ≤ b.1) (scheduleRun cursor0 frames)
    ∧ List.Forall₂ (fun f s : ℚ × ℚ => f.1 ≤ s.1 ∧ f.2 = s.2)
        frames (scheduleRun cursor0 frames) := by
  induction frames generalizing cursor0 with
  | nil => exact ⟨List.chain'_nil, List.Forall₂.nil⟩
  | cons f rest ih =>
    rcases f with ⟨c, d⟩
    rcases ih (max cursor0 c + d) with ⟨ihc, ihf⟩
    constructor
    · refine List.chain'_cons'.mpr ⟨?_, ihc⟩
      intro y hy
      exact scheduleRun_head_ge rest (max cursor0 c + d) y hy
    · exact List.Forall₂.cons ⟨le_max_right _ _, rfl⟩ ihf

theorem wrap16_eq_self (n : ℤ) (h1 : -32768 ≤ n) (h2 : n < 32768) : wrap16 n = n := by
  unfold wrap16
  omega

theorem wrap16_mod (n : ℤ) : wrap16 n % 65536 = n % 65536 ∧ -32768 ≤ wrap16 n ∧ wrap16 n < 32768 := by
  unfold wrap16
  constructor
  · split <;> omega
  · constructor <;> [skip; skip] <;> split <;> omega

theorem jsTrunc_scaled_bounds (s : ℚ) (h1 : -1 ≤ s) (h2 : s < 1) :
    -32768 ≤ jsTrunc (s * 32768) ∧ jsTrunc (s * 32768) < 32768 := by
  have hlo : (-32768 : ℚ) ≤ s * 32768 := by nlinarith
  have hhi : s * 32768 < 32768 := by nlinarith
  unfold jsTrunc
  split
  · constructor
    · have : (0 : ℤ) ≤ ⌊s * 32768⌋ := Int.floor_nonneg.mpr (by assumption)
      omega
    · exact Int.floor_lt.mpr (by exact_mod_cast hhi)
  · rename_i hneg
    constructor
    · have hc : ((-32768 : ℤ) : ℚ) ≤ (⌈s * 32768⌉ : ℚ) := by
        calc ((-32768 : ℤ) : ℚ) ≤ s * 32768 := by exact_mod_cast hlo
        _ ≤ (⌈s * 32768⌉ : ℚ) := Int.le_ceil _
      exact_mod_cast hc
    · have hle : s * 32768 ≤ 0 := le_of_lt (lt_of_not_le hneg)
      have : ⌈s * 32768⌉ ≤ (0 : ℤ) := Int.ceil_le.mpr (by exact_mod_cast hle)
      omega

/-- C9: the capture encoder scales each sample by 32768 and stores it with JS
`ToInt16` semantics — every in-range sample in `[-1, 1)` maps to its
(truncated) scaled value unchanged, any sample wraps modulo 2^16 into
`[-32768, 32768)` rather than saturating, and the produced frame carries
mimeType `"audio/pcm;rate=16000"`. -/
theorem C9_pcm_quantization (samples : List ℚ) :
    (createBlob samples).mimeType = "audio/pcm;rate=16000".toList
    ∧ (createBlob samples).data = b64encode (((samples.map toInt16).map int16LE).flatten)
    ∧ (∀ s : ℚ, -1 ≤ s → s < 1 → toInt16 s = jsTrunc (s * 32768))
    ∧ (∀ s : ℚ, toInt16 s % 65536 = jsTrunc (s * 32768) % 65536
        ∧ -32768 ≤ toInt16 s ∧ toInt16 s < 32768) := by
  refine ⟨rfl, rfl, ?_, ?_⟩
  · intro s h1 h2
    rcases jsTrunc_scaled_bounds s h1 h2 with ⟨hlo, hhi⟩
    exact wrap16_eq_self _ hlo hhi
  · intro s
    exact wrap16_mod _

/-- Witness for C9 at concrete samples: `1/2` maps to `16384`, `-1` to
`-32768`, and the out-of-range sample `2` wraps to `0` (not saturated). -/
theorem C9_pcm_quantization_witness :
    (createBlob [1/2, -1, 2]).mimeType = "audio/pcm;rate=16000".toList
    ∧ toInt16 (1/2) = jsTrunc ((1/2 : ℚ) * 32768)
    ∧ toInt16 (-1) = jsTrunc ((-1 : ℚ) * 32768)
    ∧ toInt16 2 % 65536 = jsTrunc ((2 : ℚ) * 32768) % 65536 := by
  refine ⟨(C9_pcm_quantization [1/2, -1, 2]).1, ?_, ?_, ?_⟩
  · exact (C9_pcm_quantization []).2.2.1 (1/2) (by norm_num) (by norm_num)
  · exact (C9_pcm_quantization []).2.2.1 (-1) (by norm_num) (by norm_num)
  · exact ((C9_pcm_quantization []).2.2.2 2).1

/-- C10: the request history excludes the initial greeting and is capped at
the most recent 20 remaining messages of the conversation including the
just-sent user message (which, not being the greeting, is always the last
entry); every entry is the role/parts mapping of a non-greeting conversation
message, and older messages are dropped. -/
theorem C10_history_cap (messages : List Message) (newUserMessage : Message) :
    handleSendHistory messages newUserMessage
      = ((((messages ++ [newUserMessage]).filter
            (fun m => m.id != greetingId)).reverse.take 20).reverse).map toHistEntry
    ∧ (handleSendHistory messages newUserMessage).length ≤ 20
    ∧ (∀ e ∈ handleSendHistory messages newUserMessage,
        ∃ m ∈ messages ++ [newUserMessage], m.id ≠ greetingId ∧ e = toHistEntry m)
    ∧ (newUserMessage.id ≠ greetingId →
        (handleSendHistory messages newUserMessage).getLast?
          = some (toHistEntry newUserMessage)) := by
  refine ⟨?_, ?_, ?_, ?_⟩
  · show ((List.filter _ _).drop _).map _ = _
    rw [← List.rtake, List.rtake_eq_reverse_take_reverse]
  · show (((List.filter _ _).drop _).map _).length ≤ 20
    rw [List.length_map, List.length_drop]
    omega
  · intro e he
    show ∃ m ∈ _, _
    rcases List.mem_map.mp he with ⟨m, hm, rfl⟩
    have hmf : m ∈ (messages ++ [newUserMessage]).filter (fun m => m.id != greetingId) :=
      List.mem_of_mem_drop hm
    rcases List.mem_filter.mp hmf with ⟨hmem, hpred⟩
    exact ⟨m, hmem, by simpa using hpred, rfl⟩
  · intro hnew
    show List.getLast? (((List.filter _ _).drop _).map _) = _
    have hsingle : List.filter (fun m => m.id != greetingId) [newUserMessage]
        = [newUserMessage] := by
      have hb : (newUserMessage.id != greetingId) = true := by simpa using hnew
      simp [List.filter, hb]
    rw [List.filter_append, hsingle]
    set l := messages.filter (fun m => m.id != greetingId) with hl
    have hk : (l ++ [newUserMessage]).length - 20 ≤ l.length := by
      rw [List.length_append]
      simp only [List.length_singleton]
      omega
    rw [List.drop_append_of_le_length hk, List.map_append]
    simp

/-- Witness for C10 at a concrete conversation: the greeting plus a just-sent
user message; the history ends with the entry of the user message and respects
the cap. -/
theorem C10_history_cap_witness :
    (handleSendHistory
        [⟨greetingId, "hey there".toList, Sender.bot, [], none⟩]
        ⟨"5".toList, "hello".toList, Sender.user, [], none⟩).getLast?
      = some (toHistEntry ⟨"5".toList, "hello".toList, Sender.user, [], none⟩)
    ∧ (handleSendHistory
        [⟨greetingId, "hey there".toList, Sender.bot, [], none⟩]
        ⟨"5".toList, "hello".toList, Sender.user, [], none⟩).length ≤ 20 :=
  ⟨(C10_history_cap _ _).2.2.2 (by decide), (C10_history_cap _ _).2.1⟩

theorem splitUnits_no_nl (cs : List Char) (h : '\n' ∉ cs) : splitUnits cs = ([], cs) := by
  induction cs with
  | nil => rfl
  | cons c cs ih =>
    have hc : c ≠ '\n' := fun hc => h (hc ▸ List.mem_cons_self c cs)
    have ih' := ih (fun hmem => h (List.mem_cons_of_mem c hmem))
    simp [splitUnits, hc, ih', consLine]

theorem splitUnits_snd_no_nl (cs : List Char) : '\n' ∉ (splitUnits cs).2 := by
  induction cs with
  | nil => simp [splitUnits]
  | cons c cs ih =>
    by_cases hc : c = '\n'
    · simpa [splitUnits, hc] using ih
    · cases hsp : splitUnits cs with
      | mk a b =>
        rw [hsp] at ih
        cases a with
        | nil =>
          simp only [splitUnits, if_neg hc, hsp, consLine, List.mem_cons]
          rintro (h | h)
          · exact hc h.symm
          · exact ih h
        | cons l t =>
          simp only [splitUnits, if_neg hc, hsp, consLine]
          exact ih

theorem splitUnits_append (x y : List Char) :
    splitUnits (x ++ y)
      = ((splitUnits x).1 ++ (splitUnits ((splitUnits x).2 ++ y)).1,
         (splitUnits ((splitUnits x).2 ++ y)).2) := by
  induction x with
  | nil => simp [splitUnits]
  | cons c xs ih =>
    by_cases hc : c = '\n'
    · subst hc
      simp only [List.cons_append, splitUnits, if_pos rfl, List.append_eq]
      rw [ih]
      simp
    · cases hx : splitUnits xs with
      | mk a r =>
        cases hB : splitUnits (r ++ y) with
        | mk B1 B2 =>
          have ih2 : splitUnits (xs ++ y) = (a ++ B1, B2) := by
            rw [ih, hx]
            simp [hB]
          cases a with
          | nil =>
            simp only [List.cons_append, splitUnits, if_neg hc, hx, hB,
              List.nil_append, consLine, List.append_eq]
            rw [ih2]
            cases B1 <;> simp [consLine]
          | cons l t =>
            simp only [List.cons_append, splitUnits, if_neg hc, hx, hB, consLine,
              List.append_eq]
            rw [ih2]
            simp [consLine]

theorem parseLines_append {J : Type} (parse : List Char → Option J)
    (a b : List (List Char)) :
    parseLines parse (a ++ b) = parseLines parse a ++ parseLines parse b := by
  unfold parseLines
  exact List.filterMap_append _ _ _

theorem stepChunk_append {J : Type} (parse : List Char → Option J)
    (buffer a b : List Char) :
    stepChunk parse buffer (a ++ b)
      = ((stepChunk parse (stepChunk parse buffer a).1 b).1,
         (stepChunk parse buffer a).2 ++ (stepChunk parse (stepChunk parse buffer a).1 b).2) := by
  unfold stepChunk
  rw [← List.append_assoc, splitUnits_append (buffer ++ a) b]
  simp [parseLines_append]

theorem runChunks_flatten {J : Type} (parse : List Char → Option J)
    (chunks : List (List Char)) :
    ∀ buffer, '\n' ∉ buffer →
      runChunks parse buffer chunks = stepChunk parse buffer chunks.flatten := by
  induction chunks with
  | nil =>
    intro buffer h
    simp [runChunks, stepChunk, splitUnits_no_nl buffer h, parseLines]
  | cons c cs ih =>
    intro buffer h
    have hmid : '\n' ∉ (stepChunk parse buffer c).1 := splitUnits_snd_no_nl _
    simp only [runChunks, List.flatten_cons, ih _ hmid, stepChunk_append]

theorem splitUnits_unit_cons (u rest : List Char) (hu : '\n' ∉ u) :
    splitUnits (u ++ '\n' :: rest) = (u :: (splitUnits rest).1, (splitUnits rest).2) := by
  induction u with
  | nil => simp [splitUnits]
  | cons c u' ih =>
    have hc : c ≠ '\n' := fun hc => hu (hc ▸ List.mem_cons_self c u')
    have ih' := ih (fun hmem => hu (List.mem_cons_of_mem c hmem))
    simp only [List.cons_append, splitUnits, if_neg hc, consLine, List.append_eq]
    rw [ih']

theorem splitUnits_joinNl (units : List (List Char)) (tail : List Char)
    (hU : ∀ u ∈ units, '\n' ∉ u) (hT : '\n' ∉ tail) :
    splitUnits (joinNl units ++ tail) = (units, tail) := by
  induction units with
  | nil => simpa [joinNl] using splitUnits_no_nl tail hT
  | cons u us ih =>
    have hu : '\n' ∉ u := hU u (List.mem_cons_self u us)
    have ih' := ih (fun v hv => hU v (List.mem_cons_of_mem u hv))
    have hshape : joinNl (u :: us) ++ tail = u ++ '\n' :: (joinNl us ++ tail) := by
      simp [joinNl]
    rw [hshape, splitUnits_unit_cons u _ hu, ih']

theorem parseLines_units {J : Type} (parse : List Char → Option J)
    (hws : ∀ s, jsTrim s = [] → parse s = none)
    (units : List (List Char)) (vs : List J)
    (h : units.map parse = vs.map some) :
    parseLines parse units = vs := by
  induction units generalizing vs with
  | nil =>
    cases vs with
    | nil => rfl
    | cons v vs' => simp at h
  | cons u us ih =>
    cases vs with
    | nil => simp at h
    | cons v vs' =>
      simp only [List.map_cons, List.cons.injEq] at h
      rcases h with ⟨hu, hus⟩
      have hguard : jsTrim u ≠ [] := by
        intro hg
        rw [hws u hg] at hu
        exact Option.noConfusion hu
      unfold parseLines
      rw [List.filterMap_cons, if_neg hguard, hu]
      exact congrArg (v :: ·) (ih vs' hus)

/-- C2: for fragments whose concatenation is `N` complete newline-delimited
JSON units (each parsed by the host parser to the corresponding value)
followed by an undelimited tail, the read loop yields exactly those `N`
values in arrival order while fragments arrive (final buffer = the tail),
and on stream end the whole decode additionally yields the parse of the tail when
it succeeds and nothing otherwise; an entirely empty stream yields zero
units.  The parse function is the host `JSON.parse`, constrained only to
fail on blank text. -/
theorem C2_stream_decoder {J : Type} (parse : List Char → Option J)
    (hws : ∀ s, jsTrim s = [] → parse s = none)
    (frags units : List (List Char)) (tail : List Char) (vs : List J)
    (hjoin : frags.flatten = joinNl units ++ tail)
    (hU : ∀ u ∈ units, '\n' ∉ u)
    (hT : '\n' ∉ tail)
    (hparse : units.map parse = vs.map some) :
    runChunks parse [] frags = (tail, vs)
    ∧ streamDecode parse frags = vs ++ (parse tail).toList := by
  have h1 : runChunks parse [] frags = (tail, vs) := by
    rw [runChunks_flatten parse frags [] (by simp)]
    unfold stepChunk
    rw [List.nil_append, hjoin, splitUnits_joinNl units tail hU hT]
    rw [parseLines_units parse hws units vs hparse]
  refine ⟨h1, ?_⟩
  unfold streamDecode
  rw [h1]
  unfold finishStream
  by_cases htr : jsTrim tail = []
  · rw [if_pos htr, hws tail htr]
    simp
  · rw [if_neg htr]

/-- Witness for C2 at a concrete input: two fragments splitting one complete
unit `"1\n"` mid-unit, plus an empty tail; the loop yields `[1]` with an
empty final buffer, and the whole decode yields `[1]`. -/
theorem C2_stream_decoder_witness :
    runChunks parseOne [] [['1'], ['\n']] = ([], [1])
    ∧ streamDecode parseOne [['1'], ['\n']] = [1] := by
  have hws : ∀ s, jsTrim s = [] → parseOne s = none := by
    intro s hs
    unfold parseOne
    split
    · rename_i hEq
      rw [hEq] at hs
      exact absurd hs (by decide)
    · rfl
  have h := C2_stream_decoder parseOne hws [['1'], ['\n']] [['1']] [] [1]
    (by decide) (by decide) (by decide) (by decide)
  exact ⟨h.1, h.2.trans (by decide)⟩

/-- C3: with the host parser accepting `lineA`/`lineB` (as `JSON.parse` does)
and rejecting `NOTJSON`, any fragment sequence concatenating to
`{"textChunk":"a"}\nNOTJSON\n{"textChunk":"b"}\n` decodes to exactly the two
units `"a"` then `"b"` — the malformed line is skipped and decoding
continues. -/
theorem C3_malformed_unit_skipped (parse : List Char → Option StreamResponse)
    (hA : parse lineA = some unitA) (hN : parse lineN = none)
    (hB : parse lineB = some unitB)
    (frags : List (List Char))
    (hjoin : frags.flatten = joinNl [lineA, lineN, lineB]) :
    streamDecode parse frags = [unitA, unitB] := by
  have hjoin' : frags.flatten = joinNl [lineA, lineN, lineB] ++ [] := by
    simpa using hjoin
  have h1 : runChunks parse [] frags = ([], parseLines parse [lineA, lineN, lineB]) := by
    rw [runChunks_flatten parse frags [] (by simp)]
    unfold stepChunk
    rw [List.nil_append, hjoin', splitUnits_joinNl [lineA, lineN, lineB] []
      (by decide) (by decide)]
  have fA : (if jsTrim lineA = [] then none else parse lineA) = some unitA := by
    rw [if_neg (by decide), hA]
  have fN : (if jsTrim lineN = [] then none else parse lineN) = none := by
    rw [if_neg (by decide), hN]
  have fB : (if jsTrim lineB = [] then none else parse lineB) = some unitB := by
    rw [if_neg (by decide), hB]
  have e1 : parseLines parse [lineA, lineN, lineB] = [unitA, unitB] := by
    unfold parseLines
    rw [List.filterMap_cons, fA, List.filterMap_cons, fN, List.filterMap_cons, fB,
      List.filterMap_nil]
  unfold streamDecode
  rw [h1, e1]
  simp [finishStream, jsTrim]

/-- Witness for C3 at a concrete input: the whole C3 text delivered as a
single fragment decodes to the two units `"a"` then `"b"`. -/
theorem C3_malformed_unit_skipped_witness :
    streamDecode parseC3 [joinNl [lineA, lineN, lineB]] = [unitA, unitB] :=
  C3_malformed_unit_skipped parseC3 (by decide) (by decide) (by decide)
    [joinNl [lineA, lineN, lineB]] (by decide)

/-- C4: on every network-level failure (non-OK status, missing body, or an
exception while reading) the generator does not rethrow: it yields the units
decoded before the failure (none at all for non-OK/missing-body), then
exactly one synthetic unit whose textChunk is the human-readable connection
error, and terminates. -/
theorem C4_transport_failure (parse : List Char → Option StreamResponse)
    (t : Transport)
    (h : t = Transport.notOk ∨ t = Transport.noBody
        ∨ ∃ frags, t = Transport.stream frags true) :
    (∃ before, streamTextResponseFull parse t = before ++ [errorUnit]
        ∧ (t = Transport.notOk ∨ t = Transport.noBody → before = []))
    ∧ errorUnit.textChunk = some connectErrorText := by
  refine ⟨?_, rfl⟩
  rcases h with rfl | rfl | ⟨frags, rfl⟩
  · exact ⟨[], rfl, fun _ => rfl⟩
  · exact ⟨[], rfl, fun _ => rfl⟩
  · refine ⟨(runChunks parse [] frags).2, rfl, ?_⟩
    rintro (h' | h') <;> exact absurd h' (by simp)

/-- Witness for C4 at a concrete failure: a non-OK response yields exactly
the synthetic error unit. -/
theorem C4_transport_failure_witness :
    streamTextResponseFull (fun _ => none) Transport.notOk = [errorUnit] := by
  obtain ⟨⟨before, hp, hnil⟩, _⟩ :=
    C4_transport_failure (fun _ => none) Transport.notOk (Or.inl rfl)
  rw [hp, hnil (Or.inl rfl)]
  rfl

/-- C8: teardown is idempotent and total — stopping a never-started session
is a guarded no-op; after any call from a started session the four handle
refs (session promise, media stream, script processor, media stream source)
are null; a repeated call, whether before or after the render that syncs
`isLiveRef`, changes nothing and performs no further release of any
resource. -/
theorem C8_teardown_idempotent (st : TalkState) :
    (st.isLiveRef = false → handleStopLive st = (st, []))
    ∧ (handleStopLive neverStarted = (neverStarted, []))
    ∧ (st.isLiveRef = true →
        (handleStopLive st).1.sessionPromise = none
        ∧ (handleStopLive st).1.stream = none
        ∧ (handleStopLive st).1.scriptProcessor = none
        ∧ (handleStopLive st).1.mediaStreamSource = none
        ∧ handleStopLive (handleStopLive st).1 = ((handleStopLive st).1, [])
        ∧ handleStopLive (renderSync (handleStopLive st).1)
            = (renderSync (handleStopLive st).1, [])) := by
  refine ⟨?_, rfl, ?_⟩
  · intro h
    simp [handleStopLive, h]
  · intro h
    have hstop : handleStopLive st
        = ({ st with
              isLiveState := false
              sessionPromise := none
              stream := none
              scriptProcessor := none
              mediaStreamSource := none
              inputCtx := (closeCtxCaught st.inputCtx TEffect.closeInputCtx).1
              outputCtx := (closeCtxCaught st.outputCtx TEffect.closeOutputCtx).1 },
          effOf st.sessionPromise TEffect.closeSession
            ++ effOf st.stream TEffect.stopTracks
            ++ effOf st.scriptProcessor TEffect.disconnectProcessor
            ++ effOf st.mediaStreamSource TEffect.disconnectSource
            ++ (closeCtxCaught st.inputCtx TEffect.closeInputCtx).2
            ++ (closeCtxCaught st.outputCtx TEffect.closeOutputCtx).2) := by
      simp [handleStopLive, h]
    refine ⟨by rw [hstop], by rw [hstop], by rw [hstop], by rw [hstop], ?_, ?_⟩
    · rw [hstop]
      by_cases hr : st.isLiveRef = false
      · rw [h] at hr
        exact absurd hr (by simp)
      · simp only [handleStopLive, h]
        cases st.inputCtx with
        | none => cases st.outputCtx with
          | none => simp [closeCtxCaught, effOf]
          | some b => cases b <;> simp [closeCtxCaught, effOf]
        | some a => cases a <;> cases st.outputCtx with
          | none => simp [closeCtxCaught, effOf]
          | some b => cases b <;> simp [closeCtxCaught, effOf]
    · rw [hstop]
      simp [handleStopLive, renderSync]

/-- Witness for C8 at a concrete started state: stopping nulls the session
promise, a second stop is a strict no-op, and stopping a never-started
component is a no-op. -/
theorem C8_teardown_idempotent_witness :
    (handleStopLive startedState).1.sessionPromise = none
    ∧ handleStopLive (handleStopLive startedState).1
        = ((handleStopLive startedState).1, [])
    ∧ handleStopLive neverStarted = (neverStarted, []) :=
  ⟨((C8_teardown_idempotent startedState).2.2 rfl).1,
   ((C8_teardown_idempotent startedState).2.2 rfl).2.2.2.2.1,
   (C8_teardown_idempotent startedState).2.1⟩

/-- C1 (refuted — evaluation of the code at the failing input): splitting
`"hi [REACT:x]"` into the chunks `"hi [RE"` / `"ACT:x]"` yields one bubble
`"hi [REhi "` — the directive prefix `"[RE"` is flushed as prose and the
prose `"hi "` is appended a second time, because the post-loop code appends
the whole remainder and then truncates the buffer with a stale `lastIndex` —
whereas the same text fed as a single chunk yields one bubble `"hi "`.
The two final message sequences differ, refuting chunk-boundary
invariance. -/
theorem C1_chunk_boundary_divergence :
    (finalizeMessages (runStream initialChatState
        [textOnly "hi [RE", textOnly "ACT:x]"])).map Message.text
      = ["hi [REhi ".toList]
    ∧ (finalizeMessages (runStream initialChatState
        [textOnly "hi [REACT:x]"])).map Message.text
      = ["hi ".toList] := by
  constructor
  · decide
  · decide
